import Mathlib

/-!
Verification of the block-primitive layer of the fruitchain repository
(src/primitives/block.h): the `CBlockHeader` record, the `CBlock` record with
its fruit-hash aggregation, and the `CBlockLocator`, together with their
canonical byte serialization.

The hash primitive (`Hash` from hash.h) and the serialization machinery
(serialize.h) are external to the provided source file; the byte-level
encoders below follow the canonical encoding contract of the specification
(4-byte little-endian integers, raw 32-byte digests, compact-size-prefixed
byte strings), and the hash primitive is kept as an explicit function
parameter `List Byte → Nat` producing a 256-bit digest value.
-/

set_option maxRecDepth 100000

/-- A byte. -/
abbrev Byte := Fin 256

/-- Little-endian interpretation of a byte list as a natural number. -/
def leNat : List Byte → Nat
  | [] => 0
  | b :: bs => b.val + 256 * leNat bs

/-- Little-endian encoding of a natural number into exactly `w` bytes
(the low `8 * w` bits, matching storage into a fixed-width field). -/
def natLE : Nat → Nat → List Byte
  | 0, _ => []
  | w + 1, n => ⟨n % 256, Nat.mod_lt _ (by decide)⟩ :: natLE w (n / 256)

/-- Modelled from the spec: reading exactly `n` bytes from the front of a
stream, failing on a truncated stream (serialize.h is not in the provided
sources). -/
def readN (n : Nat) (bs : List Byte) : Option (List Byte × List Byte) :=
  if n ≤ bs.length then some (bs.take n, bs.drop n) else none

/-- Modelled from the spec: decoding a 4-byte little-endian unsigned 32-bit
field. -/
def readU32 (bs : List Byte) : Option (Nat × List Byte) :=
  (readN 4 bs).map fun p => (leNat p.1, p.2)

/-- Modelled from the spec: decoding a raw 32-byte (256-bit) digest. -/
def readU256 (bs : List Byte) : Option (Nat × List Byte) :=
  (readN 32 bs).map fun p => (leNat p.1, p.2)

/-- Modelled from the spec: decoding a single raw byte (uint8 field). -/
def readU8 (bs : List Byte) : Option (Nat × List Byte) :=
  (readN 1 bs).map fun p => (leNat p.1, p.2)

/-- Reinterpretation of a 32-bit pattern as a signed (two's-complement)
32-bit value. -/
def toSigned32 (n : Nat) : Int :=
  if n < 2 ^ 31 then (n : Int) else (n : Int) - 2 ^ 32

/-- Modelled from the spec: the 4-byte little-endian (two's-complement)
encoding of a signed 32-bit field. -/
def serInt32 (v : Int) : List Byte :=
  natLE 4 (v % 2 ^ 32).toNat

/-- Modelled from the spec: decoding a 4-byte little-endian signed 32-bit
field. -/
def readI32 (bs : List Byte) : Option (Int × List Byte) :=
  (readN 4 bs).map fun p => (toSigned32 (leNat p.1), p.2)

/-- Modelled from the spec: the compact variable-length unsigned integer
encoding used as a length prefix (serialize.h is not in the provided
sources). -/
def compactSize (n : Nat) : List Byte :=
  if n < 253 then natLE 1 n
  else if n < 2 ^ 16 then ⟨253, by decide⟩ :: natLE 2 n
  else if n < 2 ^ 32 then ⟨254, by decide⟩ :: natLE 4 n
  else ⟨255, by decide⟩ :: natLE 8 n

/-- Modelled from the spec: decoding a compact variable-length unsigned
integer, rejecting non-canonical (non-shortest-form) encodings. -/
def readCompactSize (bs : List Byte) : Option (Nat × List Byte) :=
  match bs with
  | [] => none
  | b :: rest =>
    if b.val < 253 then some (b.val, rest)
    else if b.val = 253 then
      (readN 2 rest).bind fun p =>
        if 253 ≤ leNat p.1 then some (leNat p.1, p.2) else none
    else if b.val = 254 then
      (readN 4 rest).bind fun p =>
        if 2 ^ 16 ≤ leNat p.1 then some (leNat p.1, p.2) else none
    else
      (readN 8 rest).bind fun p =>
        if 2 ^ 32 ≤ leNat p.1 then some (leNat p.1, p.2) else none

/-- Modelled from the spec: a variable-length byte string is serialized as a
compact-size length prefix followed by its raw bytes (the `CScriptBase`
container). -/
def serScript (s : List Byte) : List Byte :=
  compactSize s.length ++ s

/-- Modelled from the spec: decoding a compact-size-length-prefixed byte
string. -/
def readScript (bs : List Byte) : Option (List Byte × List Byte) :=
  (readCompactSize bs).bind fun p => readN p.1 p.2

/-- Modelled from the spec: decoding exactly `n` consecutive elements with the
element decoder `p`. -/
def readVecAux {α : Type} (p : List Byte → Option (α × List Byte)) :
    Nat → List Byte → Option (List α × List Byte)
  | 0, bs => some ([], bs)
  | n + 1, bs =>
    (p bs).bind fun pr =>
      (readVecAux p n pr.2).map fun q => (pr.1 :: q.1, q.2)

/-- Modelled from the spec: a vector is serialized as a compact-size count
followed by the serialization of each element in order. -/
def serVec {α : Type} (enc : α → List Byte) (xs : List α) : List Byte :=
  compactSize xs.length ++ (xs.map enc).flatten

/-- Modelled from the spec: decoding a compact-size-counted vector. -/
def readVec {α : Type} (p : List Byte → Option (α × List Byte))
    (bs : List Byte) : Option (List α × List Byte) :=
  (readCompactSize bs).bind fun pr => readVecAux p pr.1 pr.2

/-- The block-header record of block.h: nine consensus fields plus the
creator script. Digests are 256-bit values represented as naturals, the
script is a raw byte string. -/
structure CBlockHeader where
  nVersion : Int
  hashPrevBlock : Nat
  hashPrevEpisode : Nat
  hashMerkleRoot : Nat
  hashFruits : Nat
  nTime : Nat
  nBits : Nat
  nNonce : Nat
  scriptPubKey : List Byte
  nTax : Nat
deriving DecidableEq

/-- The all-null header produced by `CBlockHeader::SetNull` (and the default
constructor). -/
def CBlockHeader.SetNull : CBlockHeader :=
  ⟨0, 0, 0, 0, 0, 0, 0, 0, [], 0⟩

/-- `CBlockHeader::IsNull`: a header is null iff `nBits == 0`. -/
def CBlockHeader.IsNull (h : CBlockHeader) : Bool :=
  h.nBits == 0

/-- `CBlockHeader::GetBlockTime`: widen `nTime` to a signed 64-bit value. -/
def CBlockHeader.GetBlockTime (h : CBlockHeader) : Int :=
  (h.nTime : Int)

/-- `CBlockHeader::SerializationOp`: the canonical header encoding, fields in
declaration order — version, the four digests, time, bits, nonce, the
length-prefixed creator script, and the tax byte. -/
def serializeHeader (h : CBlockHeader) : List Byte :=
  serInt32 h.nVersion ++
  natLE 32 h.hashPrevBlock ++
  natLE 32 h.hashPrevEpisode ++
  natLE 32 h.hashMerkleRoot ++
  natLE 32 h.hashFruits ++
  natLE 4 h.nTime ++
  natLE 4 h.nBits ++
  natLE 4 h.nNonce ++
  serScript h.scriptPubKey ++
  natLE 1 h.nTax

/-- Decoding a header from bytes: the same nine fields in the same order. -/
def decodeHeader (bs : List Byte) : Option (CBlockHeader × List Byte) :=
  (readI32 bs).bind fun v =>
  (readU256 v.2).bind fun pb =>
  (readU256 pb.2).bind fun pe =>
  (readU256 pe.2).bind fun mr =>
  (readU256 mr.2).bind fun fr =>
  (readU32 fr.2).bind fun t =>
  (readU32 t.2).bind fun b =>
  (readU32 b.2).bind fun nn =>
  (readScript nn.2).bind fun sc =>
  (readU8 sc.2).map fun tx =>
  (⟨v.1, pb.1, pe.1, mr.1, fr.1, t.1, b.1, nn.1, sc.1, tx.1⟩, tx.2)

/-- Modelled from the spec: `CBlockHeader::GetHash` (defined in block.cpp,
which is not in the provided sources) serializes all fields with the
canonical encoding and applies the external double-digest primitive to the
resulting byte string. The primitive is the explicit parameter `Hash`. -/
def CBlockHeader.GetHash (Hash : List Byte → Nat) (h : CBlockHeader) : Nat :=
  Hash (serializeHeader h)

/-- The block record of block.h: the embedded header, the transaction
sequence (transactions are external to this slice, so their type is a
parameter), the fruit-header sequence, and the memory-only `fChecked` flag. -/
structure CBlock (Tx : Type) where
  header : CBlockHeader
  vtx : List Tx
  vfrt : List CBlockHeader
  fChecked : Bool
deriving DecidableEq

/-- `CBlock::SetNull`: null header, empty sequences, cleared flag. -/
def CBlock.SetNull (Tx : Type) : CBlock Tx :=
  ⟨CBlockHeader.SetNull, [], [], false⟩

/-- The `CBlock(const CBlockHeader&)` constructor: `SetNull` followed by
assignment of the embedded header. -/
def CBlock.ofHeader (Tx : Type) (h : CBlockHeader) : CBlock Tx :=
  ⟨h, [], [], false⟩

/-- `CBlock::GetBlockHeader`: a fresh header populated by copying each of the
ten header fields from the block's embedded header. -/
def CBlock.GetBlockHeader {Tx : Type} (b : CBlock Tx) : CBlockHeader :=
  ⟨b.header.nVersion, b.header.hashPrevBlock, b.header.hashPrevEpisode,
   b.header.hashMerkleRoot, b.header.hashFruits, b.header.nTime,
   b.header.nBits, b.header.nNonce, b.header.scriptPubKey, b.header.nTax⟩

/-- The inherited `CBlockHeader::GetHash` on a block hashes the embedded
header fields only. -/
def CBlock.GetHash {Tx : Type} (Hash : List Byte → Nat) (b : CBlock Tx) : Nat :=
  b.header.GetHash Hash

/-- The fold step of the fruit aggregation: hash the 32 accumulator bytes
followed by the 32 bytes of the next fruit hash, exactly the
Hash(BEGIN(hash), END(hash), BEGIN(*it), END(*it)) call of block.h. -/
def fruitStep (Hash : List Byte → Nat) (acc h : Nat) : Nat :=
  Hash (natLE 32 acc ++ natLE 32 h)

/-- `CBlock::GetFruitsHash`: first collect the hash of every fruit header in
order into `vfrtHash`, then fold the digest primitive over that list starting
from the zero digest, as in block.h. -/
def CBlock.GetFruitsHash {Tx : Type} (Hash : List Byte → Nat)
    (b : CBlock Tx) : Nat :=
  let vfrtHash := b.vfrt.map (CBlockHeader.GetHash Hash)
  vfrtHash.foldl (fruitStep Hash) 0

/-- The specification's fruit-digest algorithm: a direct left fold over the
fruit headers, starting from the zero digest, replacing the accumulator with
the digest of (accumulator || fruitHeader.GetHash()). -/
def fruitsDigest (Hash : List Byte → Nat) (frts : List CBlockHeader) : Nat :=
  frts.foldl (fun acc f => fruitStep Hash acc (f.GetHash Hash)) 0

/-- `CBlock::SerializationOp`: the embedded header, then `vtx`, then `vfrt`,
with the transaction encoder supplied externally. -/
def serializeBlock {Tx : Type} (txEnc : Tx → List Byte)
    (b : CBlock Tx) : List Byte :=
  serializeHeader b.header ++ serVec txEnc b.vtx ++ serVec serializeHeader b.vfrt

/-- Decoding a block from bytes: header, transactions, fruits, in order.
Deserialization populates only the serialized fields; the memory-only
`fChecked` flag is the cleared flag of a freshly constructed block. -/
def decodeBlock {Tx : Type} (txDec : List Byte → Option (Tx × List Byte))
    (bs : List Byte) : Option (CBlock Tx × List Byte) :=
  (decodeHeader bs).bind fun h =>
  (readVec txDec h.2).bind fun vt =>
  (readVec decodeHeader vt.2).map fun vf =>
  (⟨h.1, vt.1, vf.1, false⟩, vf.2)

/-- The chain-locator record of block.h: an ordered sequence of 256-bit
digests. -/
structure CBlockLocator where
  vHave : List Nat
deriving DecidableEq

/-- `CBlockLocator::IsNull`: the digest sequence is empty. -/
def CBlockLocator.IsNull (l : CBlockLocator) : Bool :=
  l.vHave.isEmpty

/-- `CBlockLocator::SerializationOp` in hash mode (`SER_GETHASH` set): no
version field, only the digest sequence. -/
def serializeLocatorHash (l : CBlockLocator) : List Byte :=
  serVec (natLE 32) l.vHave

/-- `CBlockLocator::SerializationOp` in wire/disk mode (`SER_GETHASH` not
set): the protocol version field, then the digest sequence. -/
def serializeLocatorWire (v : Int) (l : CBlockLocator) : List Byte :=
  serInt32 v ++ serVec (natLE 32) l.vHave

/-- Decoding a locator in hash mode. -/
def decodeLocatorHash (bs : List Byte) : Option (CBlockLocator × List Byte) :=
  (readVec readU256 bs).map fun p => (⟨p.1⟩, p.2)

/-- Decoding a locator in wire/disk mode: the version field, then the digest
sequence. -/
def decodeLocatorWire (bs : List Byte) :
    Option ((Int × CBlockLocator) × List Byte) :=
  (readI32 bs).bind fun v =>
  (readVec readU256 v.2).map fun p => ((v.1, ⟨p.1⟩), p.2)

/-! Concrete instances used to exercise the development on closed inputs. -/

/-- A degenerate instance of the external digest primitive (constant 1),
enough to separate "digest of the zero digest" from the zero digest. -/
def hashConst1 : List Byte → Nat :=
  fun _ => 1

/-- A mixing instance of the external digest primitive with 256-bit output. -/
def hashMix : List Byte → Nat :=
  fun bs => (bs.foldl (fun a b => a * 131 + b.val + 1) 0) % 2 ^ 256

/-- The concrete header of the end-to-end serialization scenario: zero
digests, version 1, time 0, bits 1, nonce 0, empty creator script, tax 0. -/
def scenarioHeader : CBlockHeader :=
  ⟨1, 0, 0, 0, 0, 0, 1, 0, [], 0⟩

/-- Trivial transaction encoder over the unit transaction type. -/
def unitEnc : Unit → List Byte :=
  fun _ => []

/-- Trivial transaction decoder over the unit transaction type. -/
def unitDec : List Byte → Option (Unit × List Byte) :=
  fun bs => some ((), bs)

/-- The canonical byte string of `scenarioHeader`: little-endian version 1,
128 zero digest bytes, zero time, little-endian bits 1, zero nonce, a zero
length byte for the empty script, and a zero tax byte. -/
def scenarioBytes : List Byte :=
  [1] ++ List.replicate 135 0 ++ [1] ++ List.replicate 9 0

/-- The block holding `scenarioHeader` and no transactions or fruits. -/
def scenarioBlock : CBlock Unit :=
  ⟨scenarioHeader, [], [], false⟩

/-- The byte string of `scenarioBlock`: the header bytes followed by two zero
count bytes for the empty transaction and fruit vectors. -/
def scenarioBlockBytes : List Byte :=
  scenarioBytes ++ [0, 0]

/-- A one-entry locator. -/
def scenarioLoc : CBlockLocator :=
  ⟨[7]⟩

/-- Hash-mode bytes of `scenarioLoc`: count 1, then the raw digest 7. -/
def scenarioLocHashBytes : List Byte :=
  [1, 7] ++ List.replicate 31 0

/-- Wire-mode bytes of `scenarioLoc` at version 1: the version field first. -/
def scenarioLocWireBytes : List Byte :=
  [1, 0, 0, 0, 1, 7] ++ List.replicate 31 0

/-- A block with content and the validation-cache flag set. -/
def blkChecked : CBlock Unit :=
  ⟨scenarioHeader, [()], [CBlockHeader.SetNull], true⟩

/-- The same block content with the validation-cache flag clear. -/
def blkUnchecked : CBlock Unit :=
  ⟨scenarioHeader, [()], [CBlockHeader.SetNull], false⟩

/-- A block whose fruit sequence is the null header then `scenarioHeader`. -/
def fruitBlockAB : CBlock Unit :=
  ⟨CBlockHeader.SetNull, [], [CBlockHeader.SetNull, scenarioHeader], false⟩

/-- The same block with the two fruits in the opposite order. -/
def fruitBlockBA : CBlock Unit :=
  ⟨CBlockHeader.SetNull, [], [scenarioHeader, CBlockHeader.SetNull], false⟩

/-! Round-trip lemmas for the primitive encoders. -/

theorem natLE_length (w n : Nat) : (natLE w n).length = w := by
  induction w generalizing n with
  | zero => rfl
  | succ w ih => simp [natLE, ih]

theorem leNat_lt (bs : List Byte) : leNat bs < 256 ^ bs.length := by
  induction bs with
  | nil => simp [leNat]
  | cons b bs ih =>
    have hb : b.val < 256 := b.isLt
    simp only [leNat, List.length_cons, pow_succ]
    omega

theorem natLE_leNat (bs : List Byte) : natLE bs.length (leNat bs) = bs := by
  induction bs with
  | nil => rfl
  | cons b bs ih =>
    have hb : b.val < 256 := b.isLt
    have hmod : (b.val + 256 * leNat bs) % 256 = b.val := by omega
    have hdiv : (b.val + 256 * leNat bs) / 256 = leNat bs := by omega
    simp only [List.length_cons, natLE, leNat, hmod, hdiv, ih]

theorem leNat_natLE (w n : Nat) (h : n < 256 ^ w) : leNat (natLE w n) = n := by
  induction w generalizing n with
  | zero =>
    have : n = 0 := by simpa using h
    simp [this, natLE, leNat]
  | succ w ih =>
    have hdiv : n / 256 < 256 ^ w := by
      rw [Nat.div_lt_iff_lt_mul (by omega)]
      calc n < 256 ^ (w + 1) := h
        _ = 256 ^ w * 256 := by ring
    simp only [natLE, leNat, ih _ hdiv]
    omega

theorem readN_eq {n : Nat} {bs xs rest : List Byte}
    (h : readN n bs = some (xs, rest)) : bs = xs ++ rest ∧ xs.length = n := by
  unfold readN at h
  split at h
  · rename_i hle
    injection h with h
    have h1 : bs.take n = xs := congrArg Prod.fst h
    have h2 : bs.drop n = rest := congrArg Prod.snd h
    subst h1; subst h2
    exact ⟨(List.take_append_drop n bs).symm, List.length_take_of_le hle⟩
  · exact absurd h (by simp)

theorem readU256_eq {bs rest : List Byte} {n : Nat}
    (h : readU256 bs = some (n, rest)) :
    bs = natLE 32 n ++ rest ∧ n < 256 ^ 32 := by
  unfold readU256 at h
  rw [Option.map_eq_some'] at h
  obtain ⟨⟨xs, r⟩, hr, heq⟩ := h
  obtain ⟨hbs, hlen⟩ := readN_eq hr
  injection heq with h1 h2
  dsimp only at h1 h2
  subst h1; subst h2
  constructor
  · rw [hbs, ← hlen, natLE_leNat]
  · rw [← hlen]; exact leNat_lt xs

theorem readU32_eq {bs rest : List Byte} {n : Nat}
    (h : readU32 bs = some (n, rest)) :
    bs = natLE 4 n ++ rest ∧ n < 256 ^ 4 := by
  unfold readU32 at h
  rw [Option.map_eq_some'] at h
  obtain ⟨⟨xs, r⟩, hr, heq⟩ := h
  obtain ⟨hbs, hlen⟩ := readN_eq hr
  injection heq with h1 h2
  dsimp only at h1 h2
  subst h1; subst h2
  constructor
  · rw [hbs, ← hlen, natLE_leNat]
  · rw [← hlen]; exact leNat_lt xs

theorem readU8_eq {bs rest : List Byte} {n : Nat}
    (h : readU8 bs = some (n, rest)) :
    bs = natLE 1 n ++ rest ∧ n < 256 ^ 1 := by
  unfold readU8 at h
  rw [Option.map_eq_some'] at h
  obtain ⟨⟨xs, r⟩, hr, heq⟩ := h
  obtain ⟨hbs, hlen⟩ := readN_eq hr
  injection heq with h1 h2
  dsimp only at h1 h2
  subst h1; subst h2
  constructor
  · rw [hbs, ← hlen, natLE_leNat]
  · rw [← hlen]; exact leNat_lt xs

theorem readI32_eq {bs rest : List Byte} {v : Int}
    (h : readI32 bs = some (v, rest)) : bs = serInt32 v ++ rest := by
  unfold readI32 at h
  rw [Option.map_eq_some'] at h
  obtain ⟨⟨xs, r⟩, hr, heq⟩ := h
  obtain ⟨hbs, hlen⟩ := readN_eq hr
  injection heq with h1 h2
  dsimp only at h1 h2
  subst h1; subst h2
  have hlt : leNat xs < 256 ^ 4 := hlen ▸ leNat_lt xs
  have hmod : ((toSigned32 (leNat xs)) % 2 ^ 32).toNat = leNat xs := by
    unfold toSigned32
    split <;> omega
  rw [hbs, serInt32, hmod, ← hlen, natLE_leNat]

theorem compactSize_eq {bs rest : List Byte} {n : Nat}
    (h : readCompactSize bs = some (n, rest)) :
    bs = compactSize n ++ rest := by
  match bs with
  | [] => exact absurd h (by simp [readCompactSize])
  | b :: r0 =>
    simp only [readCompactSize] at h
    by_cases h1 : b.val < 253
    · rw [if_pos h1] at h
      injection h with h
      have e1 : b.val = n := congrArg Prod.fst h
      have e2 : r0 = rest := congrArg Prod.snd h
      subst e2
      have hb : b.val < 256 := b.isLt
      have : compactSize n = [b] := by
        unfold compactSize
        rw [if_pos (e1 ▸ h1)]
        simp only [natLE]
        exact congrArg (fun x => [x]) (Fin.ext (show n % 256 = b.val by omega))
      rw [this]; rfl
    · rw [if_neg h1] at h
      by_cases h2 : b.val = 253
      · rw [if_pos h2] at h
        rw [Option.bind_eq_some] at h
        obtain ⟨⟨xs, r⟩, hr, hif⟩ := h
        obtain ⟨hr0, hlen⟩ := readN_eq hr
        dsimp only at hif
        split at hif
        · rename_i hge
          injection hif with hif
          have e1 : leNat xs = n := congrArg Prod.fst hif
          have e2 : r = rest := congrArg Prod.snd hif
          subst e2
          have hlt : leNat xs < 256 ^ 2 := hlen ▸ leNat_lt xs
          have : compactSize n = ⟨253, by decide⟩ :: xs := by
            unfold compactSize
            rw [if_neg (by omega), if_pos (by rw [← e1]; exact hlt),
              ← e1, ← hlen, natLE_leNat]
          rw [this, hr0, show b = (⟨253, by decide⟩ : Byte) from Fin.ext h2]
          simp
        · exact absurd hif (by simp)
      · rw [if_neg h2] at h
        by_cases h3 : b.val = 254
        · rw [if_pos h3] at h
          rw [Option.bind_eq_some] at h
          obtain ⟨⟨xs, r⟩, hr, hif⟩ := h
          obtain ⟨hr0, hlen⟩ := readN_eq hr
          dsimp only at hif
          split at hif
          · rename_i hge
            injection hif with hif
            have e1 : leNat xs = n := congrArg Prod.fst hif
            have e2 : r = rest := congrArg Prod.snd hif
            subst e2
            have hlt : leNat xs < 256 ^ 4 := hlen ▸ leNat_lt xs
            have : compactSize n = ⟨254, by decide⟩ :: xs := by
              unfold compactSize
              rw [if_neg (by omega), if_neg (by omega),
                if_pos (by rw [← e1]; exact hlt), ← e1, ← hlen, natLE_leNat]
            rw [this, hr0, show b = (⟨254, by decide⟩ : Byte) from Fin.ext h3]
            simp
          · exact absurd hif (by simp)
        · rw [if_neg h3] at h
          rw [Option.bind_eq_some] at h
          obtain ⟨⟨xs, r⟩, hr, hif⟩ := h
          obtain ⟨hr0, hlen⟩ := readN_eq hr
          dsimp only at hif
          split at hif
          · rename_i hge
            injection hif with hif
            have e1 : leNat xs = n := congrArg Prod.fst hif
            have e2 : r = rest := congrArg Prod.snd hif
            subst e2
            have hb : b.val < 256 := b.isLt
            have hb255 : b.val = 255 := by omega
            have : compactSize n = ⟨255, by decide⟩ :: xs := by
              unfold compactSize
              rw [if_neg (by omega), if_neg (by omega), if_neg (by omega),
                ← e1, ← hlen, natLE_leNat]
            rw [this, hr0, show b = (⟨255, by decide⟩ : Byte) from Fin.ext hb255]
            simp
          · exact absurd hif (by simp)

theorem readScript_eq {bs rest s : List Byte}
    (h : readScript bs = some (s, rest)) : bs = serScript s ++ rest := by
  unfold readScript at h
  rw [Option.bind_eq_some] at h
  obtain ⟨⟨m, r1⟩, hcs, hn⟩ := h
  dsimp only at hn
  obtain ⟨hr1, hlen⟩ := readN_eq hn
  rw [compactSize_eq hcs, hr1, serScript, hlen]
  simp

theorem readVecAux_eq {α : Type} {p : List Byte → Option (α × List Byte)}
    {enc : α → List Byte}
    (helem : ∀ bs a rest, p bs = some (a, rest) → bs = enc a ++ rest) :
    ∀ n bs as rest, readVecAux p n bs = some (as, rest) →
      bs = (as.map enc).flatten ++ rest ∧ as.length = n := by
  intro n
  induction n with
  | zero =>
    intro bs as rest h
    unfold readVecAux at h
    injection h with h
    have e1 : ([] : List α) = as := congrArg Prod.fst h
    have e2 : bs = rest := congrArg Prod.snd h
    subst e2
    rw [← e1]
    exact ⟨rfl, rfl⟩
  | succ n ih =>
    intro bs as rest h
    unfold readVecAux at h
    rw [Option.bind_eq_some] at h
    obtain ⟨⟨a, r1⟩, ha, hmap⟩ := h
    rw [Option.map_eq_some'] at hmap
    obtain ⟨⟨as2, r2⟩, hrec, heq⟩ := hmap
    have e1 : a :: as2 = as := congrArg Prod.fst heq
    have e2 : r2 = rest := congrArg Prod.snd heq
    obtain ⟨hbs2, hlen2⟩ := ih r1 as2 r2 hrec
    constructor
    · rw [← e1, ← e2, helem bs a r1 ha, hbs2]
      simp
    · rw [← e1]
      simp [hlen2]

theorem readVec_eq {α : Type} {p : List Byte → Option (α × List Byte)}
    {enc : α → List Byte}
    (helem : ∀ bs a rest, p bs = some (a, rest) → bs = enc a ++ rest)
    {bs rest : List Byte} {as : List α}
    (h : readVec p bs = some (as, rest)) : bs = serVec enc as ++ rest := by
  unfold readVec at h
  rw [Option.bind_eq_some] at h
  obtain ⟨⟨m, r1⟩, hcs, haux⟩ := h
  obtain ⟨hr1, hlen⟩ := readVecAux_eq helem m r1 as rest haux
  rw [compactSize_eq hcs, hr1, serVec, hlen]
  simp

theorem decodeHeader_eq {bs rest : List Byte} {h : CBlockHeader}
    (hp : decodeHeader bs = some (h, rest)) :
    bs = serializeHeader h ++ rest := by
  unfold decodeHeader at hp
  rw [Option.bind_eq_some] at hp
  obtain ⟨⟨v, r1⟩, hv, hp⟩ := hp
  rw [Option.bind_eq_some] at hp
  obtain ⟨⟨pb, r2⟩, hpb, hp⟩ := hp
  rw [Option.bind_eq_some] at hp
  obtain ⟨⟨pe, r3⟩, hpe, hp⟩ := hp
  rw [Option.bind_eq_some] at hp
  obtain ⟨⟨mr, r4⟩, hmr, hp⟩ := hp
  rw [Option.bind_eq_some] at hp
  obtain ⟨⟨fr, r5⟩, hfr, hp⟩ := hp
  rw [Option.bind_eq_some] at hp
  obtain ⟨⟨t, r6⟩, ht, hp⟩ := hp
  rw [Option.bind_eq_some] at hp
  obtain ⟨⟨bi, r7⟩, hbi, hp⟩ := hp
  rw [Option.bind_eq_some] at hp
  obtain ⟨⟨nn, r8⟩, hnn, hp⟩ := hp
  rw [Option.bind_eq_some] at hp
  obtain ⟨⟨sc, r9⟩, hsc, hp⟩ := hp
  rw [Option.map_eq_some'] at hp
  obtain ⟨⟨tax, r10⟩, htax, heq⟩ := hp
  have e1 : (⟨v, pb, pe, mr, fr, t, bi, nn, sc, tax⟩ : CBlockHeader) = h :=
    congrArg Prod.fst heq
  have e2 : r10 = rest := congrArg Prod.snd heq
  dsimp only at hpb hpe hmr hfr ht hbi hnn hsc htax
  rw [← e1, ← e2, serializeHeader]
  dsimp only
  rw [readI32_eq hv, (readU256_eq hpb).1, (readU256_eq hpe).1,
    (readU256_eq hmr).1, (readU256_eq hfr).1, (readU32_eq ht).1,
    (readU32_eq hbi).1, (readU32_eq hnn).1, readScript_eq hsc,
    (readU8_eq htax).1]
  simp

theorem decodeBlock_eq {Tx : Type} {txEnc : Tx → List Byte}
    {txDec : List Byte → Option (Tx × List Byte)}
    (htx : ∀ bs a rest, txDec bs = some (a, rest) → bs = txEnc a ++ rest)
    {bs rest : List Byte} {b : CBlock Tx}
    (hp : decodeBlock txDec bs = some (b, rest)) :
    bs = serializeBlock txEnc b ++ rest := by
  unfold decodeBlock at hp
  rw [Option.bind_eq_some] at hp
  obtain ⟨⟨h, r1⟩, hh, hp⟩ := hp
  rw [Option.bind_eq_some] at hp
  obtain ⟨⟨vt, r2⟩, hvt, hp⟩ := hp
  rw [Option.map_eq_some'] at hp
  obtain ⟨⟨vf, r3⟩, hvf, heq⟩ := hp
  have e1 : (⟨h, vt, vf, false⟩ : CBlock Tx) = b := congrArg Prod.fst heq
  have e2 : r3 = rest := congrArg Prod.snd heq
  dsimp only at hvt hvf
  rw [← e1, ← e2, serializeBlock]
  dsimp only
  rw [decodeHeader_eq hh, readVec_eq htx hvt,
    readVec_eq (fun bs a rest hpr => decodeHeader_eq hpr) hvf]
  simp

theorem decodeLocatorHash_eq {bs rest : List Byte} {l : CBlockLocator}
    (hp : decodeLocatorHash bs = some (l, rest)) :
    bs = serializeLocatorHash l ++ rest := by
  unfold decodeLocatorHash at hp
  rw [Option.map_eq_some'] at hp
  obtain ⟨⟨hs, r⟩, hv, heq⟩ := hp
  have e1 : (⟨hs⟩ : CBlockLocator) = l := congrArg Prod.fst heq
  have e2 : r = rest := congrArg Prod.snd heq
  rw [← e1, ← e2, serializeLocatorHash]
  exact readVec_eq (fun bs a rest hpr => (readU256_eq hpr).1) hv

theorem decodeLocatorWire_eq {bs rest : List Byte} {v : Int}
    {l : CBlockLocator}
    (hp : decodeLocatorWire bs = some ((v, l), rest)) :
    bs = serializeLocatorWire v l ++ rest := by
  unfold decodeLocatorWire at hp
  rw [Option.bind_eq_some] at hp
  obtain ⟨⟨v0, r1⟩, hv0, hp⟩ := hp
  rw [Option.map_eq_some'] at hp
  obtain ⟨⟨hs, r⟩, hvec, heq⟩ := hp
  have e1 : v0 = v := congrArg (fun q => q.1.1) heq
  have e2 : (⟨hs⟩ : CBlockLocator) = l := congrArg (fun q => q.1.2) heq
  have e3 : r = rest := congrArg Prod.snd heq
  dsimp only at hvec
  rw [← e1, ← e2, ← e3, serializeLocatorWire]
  dsimp only
  rw [readI32_eq hv0,
    readVec_eq (fun bs a rest hpr => (readU256_eq hpr).1) hvec]
  simp

/-- The trivial unit transaction codec satisfies the codec round-trip
contract. -/
theorem unitDec_eq : ∀ bs a rest, unitDec bs = some (a, rest) →
    bs = unitEnc a ++ rest := by
  intro bs a rest h
  injection h with h
  have e2 : bs = rest := congrArg Prod.snd h
  simp [unitEnc, e2]

/-- C1: `GetFruitsHash()` equals the sequential left fold that starts from
the all-zero 256-bit digest and, for each fruit header in `vfrt` in stored
order, replaces the accumulator with the external double-digest of the
concatenation of the accumulator bytes and the fruit header's hash bytes. -/
theorem c1_getFruitsHash_is_sequential_fold :
    ∀ (Hash : List Byte → Nat) (Tx : Type) (b : CBlock Tx),
      CBlock.GetFruitsHash Hash b = fruitsDigest Hash b.vfrt := by
  intro Hash Tx b
  unfold CBlock.GetFruitsHash fruitsDigest
  exact List.foldl_map _ _ _ _

/-- C5: `IsNull()` returns true iff `nBits == 0`, independent of every other
field; in particular the header with bits 0, time 12345 and nonce 99 is
null. -/
theorem c5_isNull_iff_bits_zero :
    (∀ h : CBlockHeader, h.IsNull = true ↔ h.nBits = 0) ∧
    CBlockHeader.IsNull ⟨0, 0, 0, 0, 0, 12345, 0, 99, [], 0⟩ = true := by
  constructor
  · intro h
    simp [CBlockHeader.IsNull]
  · decide

/-- C6: locator serialization is mode-dependent — hash mode emits only the
digest sequence with no version field, wire/disk mode prepends the version
field before the same digest-sequence encoding, and for the same locator the
two modes give different byte strings. -/
theorem c6_locator_mode_dependent :
    ∀ (v : Int) (l : CBlockLocator),
      serializeLocatorHash l = serVec (natLE 32) l.vHave ∧
      serializeLocatorWire v l = serInt32 v ++ serVec (natLE 32) l.vHave ∧
      serializeLocatorHash l ≠ serializeLocatorWire v l := by
  intro v l
  refine ⟨rfl, rfl, fun heq => ?_⟩
  have hlen := congrArg List.length heq
  simp only [serializeLocatorHash, serializeLocatorWire, List.length_append,
    serInt32, natLE_length] at hlen
  omega

/-- C9: `GetBlockHeader()` copies the header field by field and shares no
storage with the block's sequences — replacing `vtx` and `vfrt` leaves the
returned header view unchanged, and the view equals the embedded header. -/
theorem c9_headerView_independent :
    ∀ (Tx : Type) (b : CBlock Tx) (vtx2 : List Tx)
      (vfrt2 : List CBlockHeader),
      CBlock.GetBlockHeader ⟨b.header, vtx2, vfrt2, b.fChecked⟩ =
        CBlock.GetBlockHeader b ∧
      CBlock.GetBlockHeader b = b.header :=
  fun _ _ _ _ => ⟨rfl, rfl⟩

/-- C10: constructing a block from a header and taking its header view is the
identity on all ten header fields, and the constructed block has empty `vtx`,
empty `vfrt`, and `fChecked == false`. -/
theorem c10_block_of_header_identity :
    ∀ (Tx : Type) (h : CBlockHeader),
      CBlock.GetBlockHeader (CBlock.ofHeader Tx h) = h ∧
      (CBlock.ofHeader Tx h).vtx = [] ∧
      (CBlock.ofHeader Tx h).vfrt = [] ∧
      (CBlock.ofHeader Tx h).fChecked = false :=
  fun _ _ => ⟨rfl, rfl, rfl, rfl⟩

/-- C2 counterexample: with a digest primitive that returns 1 on every input,
`GetFruitsHash()` of a block with empty `vfrt` returns the raw all-zero
digest, not the external digest of the all-zero 256-bit value. -/
theorem c2_empty_fruits_counterexample :
    CBlock.GetFruitsHash hashConst1 (CBlock.SetNull Unit) = 0 ∧
    hashConst1 (natLE 32 0) = 1 ∧
    CBlock.GetFruitsHash hashConst1 (CBlock.SetNull Unit) ≠
      hashConst1 (natLE 32 0) := by
  refine ⟨rfl, rfl, ?_⟩
  decide

/-- C2 (amended): `GetFruitsHash()` applied to a block whose fruit sequence
is empty returns the raw all-zero 256-bit digest — the zero accumulator is
returned unchanged and the external digest primitive is never applied. -/
theorem c2_empty_fruits_zero :
    ∀ (Hash : List Byte → Nat) (Tx : Type) (b : CBlock Tx),
      b.vfrt = [] → CBlock.GetFruitsHash Hash b = 0 := by
  intro Hash Tx b hempty
  unfold CBlock.GetFruitsHash
  rw [hempty]
  rfl

/-- C2 witness: the amended statement at the null block. -/
theorem c2_empty_fruits_zero_witness :
    CBlock.GetFruitsHash hashConst1 (CBlock.SetNull Unit) = 0 :=
  c2_empty_fruits_zero hashConst1 Unit (CBlock.SetNull Unit) rfl

/-- C3 counterexample: the canonical encoding of the scenario header
(all-zero digests, version 1, time 0, bits 1, nonce 0, empty script, tax 0)
is 146 bytes long, not 150 as claimed: 4 + 4*32 + 4 + 4 + 4 + 1 + 1 = 146. -/
theorem c3_scenario_length_counterexample :
    (serializeHeader scenarioHeader).length = 146 ∧
    (serializeHeader scenarioHeader).length ≠ 150 := by
  constructor
  · decide
  · decide

/-- C3 (amended): the canonical serialization of the scenario header emits
the nine-field layout — 4-byte little-endian version, the four raw 32-byte
digests in order, 4-byte little-endian time, bits and nonce, the
compact-length-prefixed script, and one raw tax byte — with no field
reordered, widened, or omitted, and the encoded length equals 146 bytes. -/
theorem c3_scenario_layout :
    serializeHeader scenarioHeader = scenarioBytes ∧
    scenarioBytes =
      serInt32 1 ++ natLE 32 0 ++ natLE 32 0 ++ natLE 32 0 ++ natLE 32 0 ++
      natLE 4 0 ++ natLE 4 1 ++ natLE 4 0 ++ (compactSize 0 ++ []) ++
      natLE 1 0 ∧
    (serializeHeader scenarioHeader).length = 146 := by
  refine ⟨?_, ?_, ?_⟩ <;> decide

/-- C4: for every byte string that is a valid canonical encoding of a header,
a block, or a locator (in either mode), decoding and re-encoding reproduces
the input exactly, provided the external transaction codec itself
round-trips. -/
theorem c4_decode_encode_roundtrip :
    ∀ (Tx : Type) (txEnc : Tx → List Byte)
      (txDec : List Byte → Option (Tx × List Byte)),
      (∀ bs a rest, txDec bs = some (a, rest) → bs = txEnc a ++ rest) →
      (∀ bs h, decodeHeader bs = some (h, []) → serializeHeader h = bs) ∧
      (∀ bs b, decodeBlock txDec bs = some (b, []) →
        serializeBlock txEnc b = bs) ∧
      (∀ bs l, decodeLocatorHash bs = some (l, []) →
        serializeLocatorHash l = bs) ∧
      (∀ bs v l, decodeLocatorWire bs = some ((v, l), []) →
        serializeLocatorWire v l = bs) := by
  intro Tx txEnc txDec htx
  refine ⟨fun bs h hp => ?_, fun bs b hp => ?_, fun bs l hp => ?_,
    fun bs v l hp => ?_⟩
  · rw [decodeHeader_eq hp]
    simp
  · rw [decodeBlock_eq htx hp]
    simp
  · rw [decodeLocatorHash_eq hp]
    simp
  · rw [decodeLocatorWire_eq hp]
    simp

/-- C4 witness: the round trip on concrete header, block, and locator byte
strings. -/
theorem c4_decode_encode_roundtrip_witness :
    (decodeHeader scenarioBytes = some (scenarioHeader, []) ∧
      serializeHeader scenarioHeader = scenarioBytes) ∧
    (decodeBlock unitDec scenarioBlockBytes = some (scenarioBlock, []) ∧
      serializeBlock unitEnc scenarioBlock = scenarioBlockBytes) ∧
    (decodeLocatorHash scenarioLocHashBytes = some (scenarioLoc, []) ∧
      serializeLocatorHash scenarioLoc = scenarioLocHashBytes) ∧
    (decodeLocatorWire scenarioLocWireBytes = some ((1, scenarioLoc), []) ∧
      serializeLocatorWire 1 scenarioLoc = scenarioLocWireBytes) :=
  ⟨⟨by decide,
    (c4_decode_encode_roundtrip Unit unitEnc unitDec unitDec_eq).1
      scenarioBytes scenarioHeader (by decide)⟩,
   ⟨by decide,
    (c4_decode_encode_roundtrip Unit unitEnc unitDec unitDec_eq).2.1
      scenarioBlockBytes scenarioBlock (by decide)⟩,
   ⟨by decide,
    (c4_decode_encode_roundtrip Unit unitEnc unitDec unitDec_eq).2.2.1
      scenarioLocHashBytes scenarioLoc (by decide)⟩,
   ⟨by decide,
    (c4_decode_encode_roundtrip Unit unitEnc unitDec unitDec_eq).2.2.2
      scenarioLocWireBytes 1 scenarioLoc (by decide)⟩⟩

/-- C7: the validation-cache flag `fChecked` never influences serialization
or hashing — blocks agreeing on header, `vtx` and `vfrt` but differing in
`fChecked` serialize and hash identically, and decoding never sets the
flag. -/
theorem c7_fChecked_transparent :
    ∀ (Tx : Type) (txEnc : Tx → List Byte)
      (txDec : List Byte → Option (Tx × List Byte))
      (Hash : List Byte → Nat) (b1 b2 : CBlock Tx),
      b1.header = b2.header → b1.vtx = b2.vtx → b1.vfrt = b2.vfrt →
      b1.fChecked ≠ b2.fChecked →
      serializeBlock txEnc b1 = serializeBlock txEnc b2 ∧
      CBlock.GetHash Hash b1 = CBlock.GetHash Hash b2 ∧
      CBlock.GetFruitsHash Hash b1 = CBlock.GetFruitsHash Hash b2 ∧
      ∀ bs b rest, decodeBlock txDec bs = some (b, rest) →
        b.fChecked = false := by
  intro Tx txEnc txDec Hash b1 b2 hh hv hf hfc
  refine ⟨?_, ?_, ?_, ?_⟩
  · unfold serializeBlock
    rw [hh, hv, hf]
  · unfold CBlock.GetHash
    rw [hh]
  · unfold CBlock.GetFruitsHash
    rw [hf]
  · intro bs b rest hp
    unfold decodeBlock at hp
    rw [Option.bind_eq_some] at hp
    obtain ⟨⟨h, r1⟩, hh2, hp⟩ := hp
    rw [Option.bind_eq_some] at hp
    obtain ⟨⟨vt, r2⟩, hvt, hp⟩ := hp
    rw [Option.map_eq_some'] at hp
    obtain ⟨⟨vf, r3⟩, hvf, heq⟩ := hp
    have e1 : (⟨h, vt, vf, false⟩ : CBlock Tx) = b := congrArg Prod.fst heq
    rw [← e1]

/-- C7 witness: two concrete blocks differing only in `fChecked`. -/
theorem c7_fChecked_transparent_witness :
    serializeBlock unitEnc blkChecked = serializeBlock unitEnc blkUnchecked ∧
    CBlock.GetHash hashMix blkChecked = CBlock.GetHash hashMix blkUnchecked ∧
    CBlock.GetFruitsHash hashMix blkChecked =
      CBlock.GetFruitsHash hashMix blkUnchecked ∧
    ∀ bs b rest, decodeBlock unitDec bs = some (b, rest) →
      b.fChecked = false :=
  c7_fChecked_transparent Unit unitEnc unitDec hashMix blkChecked
    blkUnchecked rfl rfl rfl (by decide)

/-- C8: the fruit aggregation is order-sensitive — for fruit headers with
distinct hashes, a block with fruits `[A, B]` and a block with fruits
`[B, A]` have different aggregate digests, unless the external digest
primitive collides on the two second-round inputs. -/
theorem c8_order_sensitive :
    ∀ (Hash : List Byte → Nat) (A B : CBlockHeader) (Tx : Type)
      (hd : CBlockHeader) (vt : List Tx) (fc : Bool),
      (∀ bs, Hash bs < 2 ^ 256) →
      A.GetHash Hash ≠ B.GetHash Hash →
      (fruitStep Hash (fruitStep Hash 0 (A.GetHash Hash)) (B.GetHash Hash) =
          fruitStep Hash (fruitStep Hash 0 (B.GetHash Hash))
            (A.GetHash Hash) →
        natLE 32 (fruitStep Hash 0 (A.GetHash Hash)) ++
            natLE 32 (B.GetHash Hash) =
          natLE 32 (fruitStep Hash 0 (B.GetHash Hash)) ++
            natLE 32 (A.GetHash Hash)) →
      CBlock.GetFruitsHash Hash (⟨hd, vt, [A, B], fc⟩ : CBlock Tx) ≠
        CBlock.GetFruitsHash Hash (⟨hd, vt, [B, A], fc⟩ : CBlock Tx) := by
  intro Hash A B Tx hd vt fc hbound hne hnocoll heq
  have hAB : CBlock.GetFruitsHash Hash (⟨hd, vt, [A, B], fc⟩ : CBlock Tx) =
      fruitStep Hash (fruitStep Hash 0 (A.GetHash Hash)) (B.GetHash Hash) :=
    rfl
  have hBA : CBlock.GetFruitsHash Hash (⟨hd, vt, [B, A], fc⟩ : CBlock Tx) =
      fruitStep Hash (fruitStep Hash 0 (B.GetHash Hash)) (A.GetHash Hash) :=
    rfl
  rw [hAB, hBA] at heq
  have hlists := hnocoll heq
  have hlen : (natLE 32 (fruitStep Hash 0 (A.GetHash Hash))).length =
      (natLE 32 (fruitStep Hash 0 (B.GetHash Hash))).length := by
    rw [natLE_length, natLE_length]
  obtain ⟨h1, h2⟩ := List.append_inj hlists hlen
  have hpow : (256 : Nat) ^ 32 = 2 ^ 256 := by norm_num
  have hB := leNat_natLE 32 (B.GetHash Hash) (by rw [hpow]; exact hbound _)
  have hA := leNat_natLE 32 (A.GetHash Hash) (by rw [hpow]; exact hbound _)
  have hget : B.GetHash Hash = A.GetHash Hash := by
    rw [← hB, ← hA, h2]
  exact hne hget.symm

/-- C8 witness: the hypotheses and conclusion at a concrete bounded digest
primitive and two concrete distinct fruit headers. -/
theorem c8_order_sensitive_witness :
    (∀ bs, hashMix bs < 2 ^ 256) ∧
    CBlockHeader.SetNull.GetHash hashMix ≠ scenarioHeader.GetHash hashMix ∧
    CBlock.GetFruitsHash hashMix fruitBlockAB ≠
      CBlock.GetFruitsHash hashMix fruitBlockBA :=
  ⟨fun bs => Nat.mod_lt _ (Nat.two_pow_pos 256),
   by decide,
   c8_order_sensitive hashMix CBlockHeader.SetNull scenarioHeader Unit
     CBlockHeader.SetNull [] false
     (fun bs => Nat.mod_lt _ (Nat.two_pow_pos 256)) (by decide) (by decide)⟩

/-- C5 witness: the null-header criterion evaluated at the scenario header. -/
theorem c5_isNull_iff_bits_zero_witness :
    scenarioHeader.IsNull = true ↔ scenarioHeader.nBits = 0 :=
  c5_isNull_iff_bits_zero.1 scenarioHeader

/-- C6 witness: the two serialization modes on a concrete locator. -/
theorem c6_locator_mode_dependent_witness :
    serializeLocatorHash scenarioLoc = serVec (natLE 32) scenarioLoc.vHave ∧
    serializeLocatorWire 1 scenarioLoc =
      serInt32 1 ++ serVec (natLE 32) scenarioLoc.vHave ∧
    serializeLocatorHash scenarioLoc ≠ serializeLocatorWire 1 scenarioLoc :=
  c6_locator_mode_dependent 1 scenarioLoc
